import Mathlib

/-!
# Verification of the django-opensearch-dsl synchronization core

Shallow embedding of `django_opensearch_dsl/documents.py`: the field mapper,
document preparer, queryset chunker, action builder and bulk synchronizer,
together with proofs of the specified properties.

Records (`models.Model` instances) are modelled as rows carrying a primary
key; JSON-like values flowing into the index are modelled by an inductive
`Json` type; Python dicts are modelled as association lists that keep
insertion order.
-/

namespace DjangoOpensearchDsl

/-- JSON-like values: the payloads produced by document preparation and the
slots of action descriptors (`None` becomes `null`). -/
inductive Json where
  | null : Json
  | str (s : String) : Json
  | int (n : Int) : Json
  | bool (b : Bool) : Json
  | obj (fields : List (String × Json)) : Json
deriving Repr

/-- A Django model instance: a primary key plus opaque attribute content
(attribute access is modelled by the extractor functions themselves). -/
structure Row where
  pk : Nat
deriving Repr, DecidableEq

/-- Modelled from the spec: `BulkAction` (module `enums.py`, not under `src/`)
is a string-valued enum with members INDEX, UPDATE, DELETE whose values are
the wire `_op_type` strings `"index"`, `"update"`, `"delete"`. -/
inductive BulkAction where
  | index : BulkAction
  | update : BulkAction
  | delete : BulkAction
deriving Repr, DecidableEq

/-- The string value of a `BulkAction` member (`action.value`); the Python
enum inherits from `str`, so `action == "update"` compares this value. -/
def BulkAction.value : BulkAction → String
  | .index => "index"
  | .update => "update"
  | .delete => "delete"

/-- Modelled from the spec: a declared index field (`fields.DODField`, module
`fields.py`, not under `src/`): an access path (`_path`, assigned a default in
`init_prepare` when unset) and the field descriptor's default value-extraction
routine `get_value_from_instance(instance, field_value_to_ignore)`. -/
structure DODField where
  path : List String
  get_value_from_instance : Row → Option Row → Json

/-- A document class together with one instance's construction-time state:
declared index fields (`_fields`, a dict, in declaration order), the optional
custom preparer methods (`prepare_<name>_with_related` / `prepare_<name>`),
the `should_index_object` predicate, the `generate_id` classmethod (default:
the record's pk), the index name and the related instance to ignore. -/
structure Document where
  name : String
  index_name : String
  fields : List (String × DODField)
  prepare_with_related : String → Option (Row → Option Row → Json)
  prepare_custom : String → Option (Row → Json)
  should_index_object : Row → Bool := fun _ => true
  generate_id : Row → Json := fun r => .int r.pk
  related_instance_to_ignore : Option Row := none
  queryset_pagination : Nat

/-- `init_prepare`: resolve, once per instance, each declared field's
extractor by priority: `prepare_<name>_with_related` (partially applied to
the related instance to ignore), then `prepare_<name>`, then the field's
`get_value_from_instance` (with `field_value_to_ignore`). Fields also get
`[name]` as default `_path` when unset. -/
def Document.init_prepare (d : Document) :
    List (String × DODField × (Row → Json)) :=
  d.fields.map fun (name, field) =>
    let field := if field.path = [] then { field with path := [name] } else field
    let fn : Row → Json :=
      match d.prepare_with_related name with
      | some prep_func => fun inst => prep_func inst d.related_instance_to_ignore
      | none =>
        match d.prepare_custom name with
        | some prep_func => prep_func
        | none => fun inst =>
            field.get_value_from_instance inst d.related_instance_to_ignore
    (name, field, fn)

/-- `prepare(instance)`: the document payload, a dict comprehension over the
prepared fields cached at construction. -/
def Document.prepare (d : Document) (inst : Row) : List (String × Json) :=
  d.init_prepare.map fun (name, _, prep_func) => (name, prep_func inst)

/-- `_prepare_action(object_instance, action)`: the bulk action descriptor
dict. The payload key is `"_source"` unless the action is `"update"` (then
`"doc"`); the payload value is `prepare(object_instance)` unless the action
is `"delete"` (then `None`). -/
def Document.prepare_action (d : Document) (object_instance : Row)
    (action : BulkAction) : List (String × Json) :=
  [("_op_type", .str action.value),
   ("_index", .str d.index_name),
   ("_id", d.generate_id object_instance),
   (if action.value ≠ "update" then "_source" else "doc",
    if action.value ≠ "delete" then .obj (d.prepare object_instance) else .null)]

/-- `_get_actions(object_list, action)`: yield an action descriptor for each
record that passes the predicate; the predicate is bypassed when the action
is `"delete"`. -/
def Document.get_actions (d : Document) (object_list : List Row)
    (action : BulkAction) : List (List (String × Json)) :=
  object_list.filterMap fun object_instance =>
    if action.value = "delete" ∨ d.should_index_object object_instance then
      some (d.prepare_action object_instance action)
    else
      none

/-! ## Queryset chunker -/

/-- A Django `QuerySet` over the document's model: the selected rows in their
current ordering, plus the `query.is_sliced` flag. -/
structure QuerySet where
  rows : List Row
  is_sliced : Bool
deriving Repr

/-- The ordering relation used by `order_by("pk")`. -/
def pkLE (a b : Row) : Prop := a.pk ≤ b.pk

instance : DecidableRel pkLE := fun a b => Nat.decLe a.pk b.pk

/-- `qs.order_by("pk")`: replace the queryset's ordering with ascending
primary key (a stable sort of the selection). -/
def QuerySet.order_by_pk (qs : QuerySet) : QuerySet :=
  { qs with rows := List.insertionSort pkLE qs.rows }

/-- `qs[:count]`: slicing caps the result count and marks the query sliced. -/
def QuerySet.slice (qs : QuerySet) (count : Nat) : QuerySet :=
  { rows := qs.rows.take count, is_sliced := true }

/-- `get_queryset(filter_, exclude, count)`: start from all objects of the
model (`all_objects`, unsliced), apply the filter, the exclusion, and the
optional count cap (which slices). -/
def Document.get_queryset (all_objects : List Row)
    (filter_ exclude : Option (Row → Bool)) (count : Option Nat) : QuerySet :=
  let qs : QuerySet := { rows := all_objects, is_sliced := false }
  let qs := match filter_ with
    | some p => { qs with rows := qs.rows.filter p }
    | none => qs
  let qs := match exclude with
    | some p => { qs with rows := qs.rows.filter fun r => !(p r) }
    | none => qs
  match count with
  | some c => qs.slice c
  | none => qs

/-- The ordering step of `get_indexing_queryset`:
`qs = qs.order_by("pk") if not qs.query.is_sliced else qs`. -/
def indexingOrder (qs : QuerySet) : QuerySet :=
  if !qs.is_sliced then qs.order_by_pk else qs

/-- The `while done < total` loop of `get_indexing_queryset`, returning the
pages it slices off (`qs[i : i + chunk_size]`); the cursor advances to
`min(i + chunk_size, total)` each iteration. The loop is embedded with fuel;
`total + 1` units suffice whenever the chunk size is positive. -/
def indexingLoopPages (rows : List Row) (chunk_size : Nat) :
    Nat → Nat → Nat → List (List Row)
  | 0, _, _ => []
  | fuel + 1, i, done =>
    if done < rows.length then
      let page := (rows.drop i).take chunk_size
      page :: indexingLoopPages rows chunk_size fuel
        (min (i + chunk_size) rows.length) (done + page.length)
    else []

/-- The pages produced by `get_indexing_queryset` on a queryset: order by pk
unless sliced, then run the chunking loop from `i = 0`, `done = 0` with page
size `queryset_pagination`. -/
def Document.get_indexing_queryset_pages (d : Document) (qs : QuerySet) :
    List (List Row) :=
  let qs := indexingOrder qs
  indexingLoopPages qs.rows d.queryset_pagination (qs.rows.length + 1) 0 0

/-- The records yielded by `get_indexing_queryset`: the concatenation of its
pages. -/
def Document.get_indexing_queryset (d : Document) (qs : QuerySet) : List Row :=
  (d.get_indexing_queryset_pages qs).flatten

/-! ## Progress / ETA -/

/-- `_eta(start, done, total)`: `"~"` before the first record; otherwise the
rounded estimate `round(elapsed / done * (total - done))`, printed in seconds,
or in minutes (floor-divided by 60) when it exceeds 120. The wall-clock
elapsed time `time.time() - start` is passed as a rational `elapsed`. -/
def eta (elapsed : ℚ) (done total : Nat) : String :=
  if done = 0 then "~"
  else
    let e : ℤ := round (elapsed / done * ((total : ℚ) - done))
    if e > 120 then toString (e / 60) ++ " mins" else toString e ++ " secs"

/-! ## Field mapper -/

/-- The concrete classes of Django model fields that can appear as dictionary
keys. The first 24 constructors are the keys of
`model_field_class_to_field_class`; the remaining ones are concrete Django
field classes absent from that table (including a user-defined subclass of
`CharField`, which a dict lookup keyed on `field.__class__` does not match). -/
inductive ModelFieldClass where
  | AutoField | BigAutoField | BigIntegerField | BooleanField | CharField
  | DateField | DateTimeField | DecimalField | EmailField | FileField
  | FilePathField | FloatField | ImageField | IntegerField | NullBooleanField
  | PositiveBigIntegerField | PositiveIntegerField | PositiveSmallIntegerField
  | SlugField | SmallIntegerField | TextField | TimeField | URLField
  | UUIDField
  | JSONField | DurationField | BinaryField | GenericIPAddressField
  | CustomCharFieldSubclass
deriving Repr, DecidableEq

/-- Modelled from the spec: the index field classes of `fields.py` (not under
`src/`) that appear as values of the mapping table. -/
inductive DODFieldClass where
  | IntegerField | LongField | BooleanField | TextField | DateField
  | DoubleField | FileField | KeywordField | ShortField
deriving Repr, DecidableEq

/-- `model_field_class_to_field_class`: the mapping table, keyed by the exact
model field class; `none` models a `KeyError` on lookup. -/
def model_field_class_to_field_class : ModelFieldClass → Option DODFieldClass
  | .AutoField => some .IntegerField
  | .BigAutoField => some .LongField
  | .BigIntegerField => some .LongField
  | .BooleanField => some .BooleanField
  | .CharField => some .TextField
  | .DateField => some .DateField
  | .DateTimeField => some .DateField
  | .DecimalField => some .DoubleField
  | .EmailField => some .TextField
  | .FileField => some .FileField
  | .FilePathField => some .KeywordField
  | .FloatField => some .DoubleField
  | .ImageField => some .FileField
  | .IntegerField => some .IntegerField
  | .NullBooleanField => some .BooleanField
  | .PositiveBigIntegerField => some .LongField
  | .PositiveIntegerField => some .IntegerField
  | .PositiveSmallIntegerField => some .ShortField
  | .SlugField => some .KeywordField
  | .SmallIntegerField => some .ShortField
  | .TextField => some .TextField
  | .TimeField => some .LongField
  | .URLField => some .TextField
  | .UUIDField => some .KeywordField
  | _ => none

/-- An instantiated index field, `FieldClass(attr=field_name)`. -/
structure IndexFieldInstance where
  field_class : DODFieldClass
  attr : String
deriving Repr, DecidableEq

/-- `ModelFieldNotMappedError(...)`: the raised exception, carrying its
message. -/
structure ModelFieldNotMappedError where
  message : String
deriving Repr, DecidableEq

/-- `to_field(field_name, model_field)`: look the model field's class up in
the table and instantiate the mapped index field with `attr=field_name`; on
`KeyError` raise `ModelFieldNotMappedError` naming the field. -/
def to_field (field_name : String) (model_field_class : ModelFieldClass) :
    Except ModelFieldNotMappedError IndexFieldInstance :=
  match model_field_class_to_field_class model_field_class with
  | some field_class => .ok { field_class := field_class, attr := field_name }
  | none => .error
      { message :=
          "Cannot convert model field " ++ field_name ++ " to an Opensearch field!" }

/-! ## Bulk synchronizer

The transport (`opensearchpy.helpers.bulk` / `parallel_bulk`) is an external
collaborator: it is modelled as a pair of uninterpreted functions from the
submitted action stream to its reported outcome. Side effects of a call —
the `post_index` signals sent and the lazily-produced parallel chunk results
actually consumed (forced by the `deque(..., maxlen=0)` drain) — are
returned explicitly alongside the result value. -/

/-- One outcome reported by the transport's `parallel_bulk` lazy generator
for one chunk: `(ok, item_info)`. -/
structure ChunkResult where
  ok : Bool
  info : String
deriving Repr, DecidableEq

/-- The bulk transport: the sequential endpoint's `(success_count,
failure_list)` response and the parallel endpoint's lazy per-chunk result
stream (parametrized by the effective chunk size). -/
structure Transport where
  bulk_response : List (List (String × Json)) → Nat × List String
  parallel_results : List (List (String × Json)) → Nat → List ChunkResult

/-- The `post_index` signal: sent with `sender=self.__class__`,
`actions=actions`, `response=response`. -/
structure PostIndexSignal where
  sender : String
  actions : List (List (String × Json))
  response : Nat × List String
deriving Repr

/-- The observable side effects of one bulk call: the `post_index` signals
sent and the parallel per-chunk results consumed from the lazy stream. -/
structure BulkEffects where
  signals : List PostIndexSignal
  consumed : List ChunkResult
deriving Repr

/-- `bulk(actions, ...)`: submit the whole stream to the transport's bulk
endpoint, send exactly one `post_index` signal carrying the document class,
the actions and the response, and return the transport's response. -/
def Document.bulk (d : Document) (t : Transport)
    (actions : List (List (String × Json))) :
    (Nat × List String) × BulkEffects :=
  let response := t.bulk_response actions
  (response,
   { signals := [{ sender := d.name, actions := actions, response := response }],
     consumed := [] })

/-- `parallel_bulk(actions, ...)`: chunk size defaults to
`queryset_pagination`; the lazy result stream is drained to completion by
`deque(bulk_actions, maxlen=0)`; the returned value is the placeholder
`(1, [])`. No signal is sent. -/
def Document.parallel_bulk (d : Document) (t : Transport)
    (actions : List (List (String × Json)))
    (chunk_size : Option Nat := none) :
    (Nat × List String) × BulkEffects :=
  let chunk_size := chunk_size.getD d.queryset_pagination
  let bulk_actions := t.parallel_results actions chunk_size
  ((1, []), { signals := [], consumed := bulk_actions })

/-- `_bulk(actions, parallel, ...)`: dispatch between the sequential and the
parallel strategy. -/
def Document.bulk_dispatch (d : Document) (t : Transport)
    (actions : List (List (String × Json))) (parallel : Bool) :
    (Nat × List String) × BulkEffects :=
  if parallel then d.parallel_bulk t actions else d.bulk t actions

/-- Modelled from the spec: the ambient configuration flags read from
`DODConfig` (module `apps.py`, not under `src/`) when `update`'s keyword
arguments are left unset. -/
structure DODConfig where
  auto_refresh_enabled : Bool
  parallel_enabled : Bool

/-- `update`'s `thing` argument: a single model instance or an iterable of
instances. -/
inductive Thing where
  | one (r : Row) : Thing
  | many (rs : List Row) : Thing

/-- The normalization step of `update`:
`object_list = [thing] if isinstance(thing, models.Model) else thing`. -/
def normalize_thing : Thing → List Row
  | .one r => [r]
  | .many rs => rs

/-- `update(thing, action, refresh=None, parallel=None, ...)`: resolve the
`parallel` default from configuration, normalize `thing` to a list, build the
action stream with `_get_actions` and dispatch through `_bulk`. (`refresh`
resolution only forwards a transport option and is not modelled.) -/
def Document.update (d : Document) (cfg : DODConfig) (t : Transport)
    (thing : Thing) (action : BulkAction) (parallel : Option Bool := none) :
    (Nat × List String) × BulkEffects :=
  let parallel := parallel.getD cfg.parallel_enabled
  let object_list := normalize_thing thing
  d.bulk_dispatch t (d.get_actions object_list action) parallel

/-! ## Sample instances used as concrete inputs -/

/-- A sample declared index field whose default extractor reads the pk. -/
def sampleField : DODField :=
  { path := [], get_value_from_instance := fun r _ => .int r.pk }

/-- A sample document class with one declared field, no custom preparers and
page size 2. -/
def sampleDoc : Document :=
  { name := "CarDocument"
    index_name := "car"
    fields := [("pk_field", sampleField)]
    prepare_with_related := fun _ => none
    prepare_custom := fun _ => none
    queryset_pagination := 2 }

/-- A sample unsliced queryset whose rows are not in pk order. -/
def sampleQs : QuerySet := { rows := [⟨5⟩, ⟨1⟩, ⟨4⟩, ⟨3⟩, ⟨2⟩], is_sliced := false }

/-! ## Theorems -/

/-- **C1** (counterexample): the claim that a DELETE `ActionDescriptor`
contains neither payload key is false: on a concrete document and record the
descriptor built for DELETE does contain the key `"_source"` (bound to
`null`). -/
theorem delete_action_contains_source_key :
    "_source" ∈ (sampleDoc.prepare_action ⟨1⟩ .delete).map Prod.fst ∧
    (sampleDoc.prepare_action ⟨1⟩ .delete).map Prod.fst =
      ["_op_type", "_index", "_id", "_source"] := by
  have h : (sampleDoc.prepare_action ⟨1⟩ .delete).map Prod.fst =
      ["_op_type", "_index", "_id", "_source"] := rfl
  exact ⟨h ▸ (by simp), h⟩

/-- **C1** (amended): `_prepare_action` puts the payload under `"doc"` for
UPDATE and under `"_source"` for INDEX; a DELETE descriptor has no `"doc"`
key, but carries the `"_source"` key bound to a null payload. -/
theorem prepare_action_payload_keys (d : Document) (r : Row) :
    d.prepare_action r .update =
      [("_op_type", .str "update"), ("_index", .str d.index_name),
       ("_id", d.generate_id r), ("doc", .obj (d.prepare r))] ∧
    d.prepare_action r .index =
      [("_op_type", .str "index"), ("_index", .str d.index_name),
       ("_id", d.generate_id r), ("_source", .obj (d.prepare r))] ∧
    d.prepare_action r .delete =
      [("_op_type", .str "delete"), ("_index", .str d.index_name),
       ("_id", d.generate_id r), ("_source", Json.null)] ∧
    "doc" ∉ (d.prepare_action r .delete).map Prod.fst := by
  refine ⟨rfl, rfl, rfl, ?_⟩
  simp [Document.prepare_action, BulkAction.value]

/-- **C3**: `_get_actions` filters INDEX and UPDATE streams through
`should_index_object`, while a DELETE stream contains one descriptor per
record regardless of the predicate. -/
theorem get_actions_filtering (d : Document) (objs : List Row) :
    d.get_actions objs .index =
      (objs.filter d.should_index_object).map (fun r => d.prepare_action r .index) ∧
    d.get_actions objs .update =
      (objs.filter d.should_index_object).map (fun r => d.prepare_action r .update) ∧
    d.get_actions objs .delete = objs.map (fun r => d.prepare_action r .delete) := by
  have key : ∀ (a : BulkAction), a.value ≠ "delete" →
      d.get_actions objs a =
        (objs.filter d.should_index_object).map (fun r => d.prepare_action r a) := by
    intro a ha
    rw [Document.get_actions,
      show (fun object_instance =>
          if a.value = "delete" ∨ d.should_index_object object_instance = true then
            some (d.prepare_action object_instance a)
          else none) =
        (fun object_instance =>
          if d.should_index_object object_instance = true then
            some (d.prepare_action object_instance a)
          else none) from funext fun r => by
        by_cases h : d.should_index_object r = true <;> simp [h, ha]]
    induction objs with
    | nil => rfl
    | cons o os ih =>
      by_cases h : d.should_index_object o = true <;>
        simp [List.filterMap_cons, List.filter_cons, h, ih]
  refine ⟨key .index (by decide), key .update (by decide), ?_⟩
  clear key
  rw [Document.get_actions,
    show (fun object_instance =>
        if BulkAction.delete.value = "delete" ∨
            d.should_index_object object_instance = true then
          some (d.prepare_action object_instance .delete)
        else none) =
      (fun object_instance => some (d.prepare_action object_instance .delete))
      from funext fun r => by simp [BulkAction.value]]
  induction objs with
  | nil => rfl
  | cons o os ih => simp [List.filterMap_cons, ih]

/-- **C4**: `to_field` maps a model field class that is a key of
`model_field_class_to_field_class` to an instance of exactly the mapped index
field class bound to the given field name via `attr`; a class that is not a
key raises `ModelFieldNotMappedError` with a message naming the field. -/
theorem to_field_mapping (field_name : String) (c : ModelFieldClass) :
    (∀ fc, model_field_class_to_field_class c = some fc →
      to_field field_name c = .ok { field_class := fc, attr := field_name }) ∧
    (model_field_class_to_field_class c = none →
      to_field field_name c = .error
        { message := "Cannot convert model field " ++ field_name ++
            " to an Opensearch field!" }) := by
  constructor
  · intro fc h
    simp [to_field, h]
  · intro h
    simp [to_field, h]

/-- **C4** (witness): a mapped class (`CharField`) yields a `TextField` bound
to the name, and an unmapped class (`JSONField`) yields the error naming the
field. -/
theorem to_field_mapping_witness :
    to_field "color" .CharField = .ok { field_class := .TextField, attr := "color" } ∧
    to_field "blob" .JSONField = .error
      { message := "Cannot convert model field blob to an Opensearch field!" } :=
  ⟨(to_field_mapping "color" .CharField).1 .TextField rfl,
   (to_field_mapping "blob" .JSONField).2 rfl⟩

/-- **C5**: `prepare` returns a payload whose keys are exactly the declared
field names in declared order, and each value is produced by the extractor
chosen by the priority: related-aware custom preparer, then plain custom
preparer, then the field descriptor's default extraction. -/
theorem prepare_keys_and_extractors (d : Document) (inst : Row) :
    (d.prepare inst).map Prod.fst = d.fields.map Prod.fst ∧
    d.prepare inst = d.fields.map (fun nf =>
      (nf.1,
       match d.prepare_with_related nf.1 with
       | some f => f inst d.related_instance_to_ignore
       | none =>
         match d.prepare_custom nf.1 with
         | some f => f inst
         | none => nf.2.get_value_from_instance inst d.related_instance_to_ignore)) := by
  have h2 : d.prepare inst = d.fields.map (fun nf =>
      (nf.1,
       match d.prepare_with_related nf.1 with
       | some f => f inst d.related_instance_to_ignore
       | none =>
         match d.prepare_custom nf.1 with
         | some f => f inst
         | none => nf.2.get_value_from_instance inst d.related_instance_to_ignore)) := by
    simp only [Document.prepare, Document.init_prepare, List.map_map]
    refine List.map_congr_left ?_
    rintro ⟨name, field⟩ _
    by_cases hp : field.path = [] <;>
      cases hw : d.prepare_with_related name <;>
      cases hc : d.prepare_custom name <;>
      simp [hp, hw, hc]
  refine ⟨?_, h2⟩
  rw [h2, List.map_map]
  rfl

/-- **C6**: an `update` call executed in parallel mode returns the
placeholder `(1, [])` whatever the transport reports per chunk, and its drain
step consumes the transport's full lazy per-chunk result stream (chunk size
defaulting to the configured pagination size). -/
theorem parallel_update_placeholder_result (d : Document) (cfg : DODConfig)
    (t : Transport) (thing : Thing) (action : BulkAction) :
    (d.update cfg t thing action (some true)).1 = (1, []) ∧
    (d.update cfg t thing action (some true)).2.consumed =
      t.parallel_results (d.get_actions (normalize_thing thing) action)
        d.queryset_pagination := by
  constructor <;> rfl

/-- **C7**: `update` normalizes its target to a list before building the
action stream: a single record becomes a one-element list, an iterable is
taken as the list of its records, and the action stream handed to `_bulk` is
built from that list. -/
theorem update_normalizes_target (d : Document) (cfg : DODConfig)
    (t : Transport) (action : BulkAction) (parallel : Option Bool) :
    (∀ r : Row, normalize_thing (.one r) = [r] ∧
      d.update cfg t (.one r) action parallel =
        d.bulk_dispatch t (d.get_actions [r] action)
          (parallel.getD cfg.parallel_enabled)) ∧
    (∀ rs : List Row, normalize_thing (.many rs) = rs ∧
      d.update cfg t (.many rs) action parallel =
        d.bulk_dispatch t (d.get_actions rs action)
          (parallel.getD cfg.parallel_enabled)) :=
  ⟨fun _ => ⟨rfl, rfl⟩, fun _ => ⟨rfl, rfl⟩⟩

/-- **C10**: each sequential bulk call sends exactly one `post_index` signal,
carrying the document class, the submitted action stream and the transport
response; an `update` dispatched with `parallel=True` sends none. -/
theorem post_index_signal_emission (d : Document) (cfg : DODConfig)
    (t : Transport) :
    (∀ actions, (d.bulk t actions).2.signals =
      [{ sender := d.name, actions := actions,
         response := t.bulk_response actions }]) ∧
    (∀ thing action, (d.update cfg t thing action (some false)).2.signals =
      [{ sender := d.name,
         actions := d.get_actions (normalize_thing thing) action,
         response := t.bulk_response
           (d.get_actions (normalize_thing thing) action) }]) ∧
    (∀ thing action,
      (d.update cfg t thing action (some true)).2.signals = []) :=
  ⟨fun _ => rfl, fun _ _ => rfl, fun _ _ => rfl⟩

/-- **C8**: the ETA of a progress line is `"~"` while no record has been
processed; once `done > 0` the rounded estimate
`round(elapsed / done * (total - done))` is rendered in seconds when it is at
most 120, and in minutes (dividing the rounded estimate by 60) when it
exceeds 120. -/
theorem eta_rendering (elapsed : ℚ) (done total : Nat) :
    (done = 0 → eta elapsed done total = "~") ∧
    (0 < done → round (elapsed / done * ((total : ℚ) - done)) ≤ 120 →
      eta elapsed done total =
        toString (round (elapsed / done * ((total : ℚ) - done))) ++ " secs") ∧
    (0 < done → 120 < round (elapsed / done * ((total : ℚ) - done)) →
      eta elapsed done total =
        toString (round (elapsed / done * ((total : ℚ) - done)) / 60) ++ " mins") := by
  refine ⟨fun h => by simp [eta, h], fun h hle => ?_, fun h hgt => ?_⟩
  · rw [eta, if_neg (by omega), if_neg (by omega)]
  · rw [eta, if_neg (by omega), if_pos hgt]

/-- **C8** (witness): with no record processed the ETA is `"~"`; a 10-second
estimate renders as seconds; a 300-second estimate renders as 5 minutes. -/
theorem eta_rendering_witness :
    eta 10 0 5 = "~" ∧ eta 10 2 4 = "10 secs" ∧ eta 300 2 4 = "5 mins" := by
  have h1 := (eta_rendering 10 0 5).1 rfl
  have e2 : round ((10 : ℚ) / (2 : Nat) * (((4 : Nat) : ℚ) - (2 : Nat))) = 10 := by
    norm_num
  have e3 : round ((300 : ℚ) / (2 : Nat) * (((4 : Nat) : ℚ) - (2 : Nat))) = 300 := by
    norm_num
  have h2 := ((eta_rendering 10 2 4).2.1 (by omega) (by rw [e2]; norm_num))
  have h3 := ((eta_rendering 300 2 4).2.2 (by omega) (by rw [e3]; norm_num))
  rw [e2] at h2
  rw [e3] at h3
  exact ⟨h1, h2, h3⟩

/-- **C9**: `get_indexing_queryset` decides whether to impose the ascending
pk order solely on the sliced flag: every unsliced queryset is re-ordered by
`order_by("pk")` (replacing any caller-supplied ordering), every sliced
queryset is left untouched, and applying a count cap in `get_queryset` marks
the queryset sliced. -/
theorem indexing_order_solely_on_sliced (qs : QuerySet) (all_objects : List Row)
    (filter_ exclude : Option (Row → Bool)) (c : Nat) :
    (qs.is_sliced = false → indexingOrder qs = qs.order_by_pk) ∧
    (qs.is_sliced = true → indexingOrder qs = qs) ∧
    (Document.get_queryset all_objects filter_ exclude (some c)).is_sliced = true := by
  refine ⟨fun h => by simp [indexingOrder, h], fun h => by simp [indexingOrder, h], ?_⟩
  cases filter_ <;> cases exclude <;> rfl

/-- **C9** (witness): a concrete unsliced queryset carrying a caller-supplied
descending ordering is re-sorted ascending by pk, while the same rows in a
sliced queryset keep their order; a count-capped `get_queryset` is sliced. -/
theorem indexing_order_solely_on_sliced_witness :
    indexingOrder { rows := [⟨3⟩, ⟨1⟩, ⟨2⟩], is_sliced := false } =
      QuerySet.order_by_pk { rows := [⟨3⟩, ⟨1⟩, ⟨2⟩], is_sliced := false } ∧
    (QuerySet.order_by_pk { rows := [⟨3⟩, ⟨1⟩, ⟨2⟩], is_sliced := false }).rows =
      [⟨1⟩, ⟨2⟩, ⟨3⟩] ∧
    indexingOrder { rows := [⟨3⟩, ⟨1⟩, ⟨2⟩], is_sliced := true } =
      { rows := [⟨3⟩, ⟨1⟩, ⟨2⟩], is_sliced := true } ∧
    (Document.get_queryset [⟨3⟩, ⟨1⟩, ⟨2⟩] none none (some 2)).is_sliced = true :=
  ⟨(indexing_order_solely_on_sliced
      { rows := [⟨3⟩, ⟨1⟩, ⟨2⟩], is_sliced := false } [] none none 0).1 rfl,
   by decide,
   (indexing_order_solely_on_sliced
      { rows := [⟨3⟩, ⟨1⟩, ⟨2⟩], is_sliced := true } [] none none 0).2.1 rfl,
   (indexing_order_solely_on_sliced
      { rows := [⟨3⟩, ⟨1⟩, ⟨2⟩], is_sliced := true }
      [⟨3⟩, ⟨1⟩, ⟨2⟩] none none 2).2.2⟩

/-! ### Chunker lemmas

The loop invariant of `get_indexing_queryset` is `done = i`: each iteration
yields the slice `[i, min(i + chunk_size, total))`, so the number of records
yielded so far always equals the cursor. -/

instance : IsTotal Row pkLE := ⟨fun a b => Nat.le_total a.pk b.pk⟩

instance : IsTrans Row pkLE := ⟨fun _ _ _ => Nat.le_trans⟩

lemma indexingLoopPages_stop (rows : List Row) (P : Nat) :
    ∀ fuel i done, ¬ done < rows.length →
      indexingLoopPages rows P fuel i done = [] := by
  intro fuel i done h
  cases fuel with
  | zero => rfl
  | succ fuel => simp [indexingLoopPages, h]

lemma drop_min_eq_drop (rows : List Row) (n : Nat) :
    rows.drop (min n rows.length) = rows.drop n := by
  rcases Nat.le_total n rows.length with h | h
  · rw [Nat.min_eq_left h]
  · rw [Nat.min_eq_right h, List.drop_length, List.drop_eq_nil_of_le h]

lemma indexingLoopPages_cursor_step (rows : List Row) (P : Nat) (i : Nat)
    (hi : i < rows.length) :
    i + ((rows.drop i).take P).length = min (i + P) rows.length := by
  simp only [List.length_take, List.length_drop]
  omega

lemma indexingLoopPages_flatten (rows : List Row) (P : Nat) (hP : 0 < P) :
    ∀ fuel i, rows.length ≤ i + fuel * P →
      (indexingLoopPages rows P fuel i i).flatten = rows.drop i := by
  intro fuel
  induction fuel with
  | zero =>
    intro i h
    simp only [Nat.zero_mul, Nat.add_zero] at h
    rw [indexingLoopPages, List.drop_eq_nil_of_le h]
    rfl
  | succ fuel ih =>
    intro i h
    by_cases hi : i < rows.length
    · rw [indexingLoopPages, if_pos hi]
      simp only [List.flatten_cons]
      rw [indexingLoopPages_cursor_step rows P i hi]
      have hnext : rows.length ≤ min (i + P) rows.length + fuel * P := by
        rcases Nat.le_total (i + P) rows.length with hle | hle
        · rw [Nat.min_eq_left hle]
          calc rows.length ≤ i + (fuel + 1) * P := h
          _ = i + P + fuel * P := by ring
        · rw [Nat.min_eq_right hle]; omega
      rw [ih (min (i + P) rows.length) hnext, drop_min_eq_drop, ← List.drop_drop,
        List.take_append_drop]
    · rw [indexingLoopPages_stop rows P _ i i hi, List.drop_eq_nil_of_le (by omega)]
      rfl

lemma indexingLoopPages_count (rows : List Row) (P : Nat) (hP : 0 < P) :
    ∀ fuel i, rows.length ≤ i + fuel * P →
      (indexingLoopPages rows P fuel i i).length =
        (rows.length - i + P - 1) / P := by
  intro fuel
  induction fuel with
  | zero =>
    intro i h
    simp only [Nat.zero_mul, Nat.add_zero] at h
    rw [indexingLoopPages]
    have : rows.length - i = 0 := by omega
    rw [this, Nat.zero_add, List.length_nil, Eq.comm, Nat.div_eq_of_lt (by omega)]
  | succ fuel ih =>
    intro i h
    by_cases hi : i < rows.length
    · rw [indexingLoopPages, if_pos hi]
      rw [List.length_cons, indexingLoopPages_cursor_step rows P i hi]
      have hnext : rows.length ≤ min (i + P) rows.length + fuel * P := by
        rcases Nat.le_total (i + P) rows.length with hle | hle
        · rw [Nat.min_eq_left hle]
          calc rows.length ≤ i + (fuel + 1) * P := h
          _ = i + P + fuel * P := by ring
        · rw [Nat.min_eq_right hle]; omega
      rw [ih (min (i + P) rows.length) hnext]
      rcases Nat.le_total (i + P) rows.length with hle | hle
      · rw [Nat.min_eq_left hle]
        have expand : rows.length - i + P - 1 = (rows.length - (i + P) + P - 1) + P := by
          omega
        rw [expand, Nat.add_div_right _ hP]
      · rw [Nat.min_eq_right hle]
        have h1 : rows.length - rows.length = 0 := by omega
        rw [h1, Nat.zero_add, Nat.div_eq_of_lt (by omega)]
        have h4 : (rows.length - i + P - 1) / P = 1 :=
          Nat.div_eq_of_lt_le (by omega) (by omega)
        omega
    · rw [indexingLoopPages_stop rows P _ i i hi]
      have : rows.length - i = 0 := by omega
      rw [this, List.length_nil, Nat.zero_add, Eq.comm, Nat.div_eq_of_lt (by omega)]

lemma indexingLoopPages_fixed_size (rows : List Row) (P : Nat) (hP : 0 < P) :
    ∀ fuel i, rows.length ≤ i + fuel * P →
      ∀ pg ∈ (indexingLoopPages rows P fuel i i).dropLast, pg.length = P := by
  intro fuel
  induction fuel with
  | zero =>
    intro i _ pg hpg
    rw [indexingLoopPages] at hpg
    simp at hpg
  | succ fuel ih =>
    intro i h pg hpg
    by_cases hi : i < rows.length
    · rw [indexingLoopPages, if_pos hi] at hpg
      simp only at hpg
      rw [indexingLoopPages_cursor_step rows P i hi] at hpg
      by_cases hrest :
          indexingLoopPages rows P fuel (min (i + P) rows.length)
            (min (i + P) rows.length) = []
      · rw [hrest] at hpg
        simp at hpg
      · have hnext : rows.length ≤ min (i + P) rows.length + fuel * P := by
          rcases Nat.le_total (i + P) rows.length with hle | hle
          · rw [Nat.min_eq_left hle]
            calc rows.length ≤ i + (fuel + 1) * P := h
            _ = i + P + fuel * P := by ring
          · rw [Nat.min_eq_right hle]; omega
        rw [List.dropLast_cons_of_ne_nil hrest] at hpg
        rcases List.mem_cons.1 hpg with hpg | hpg
        · subst hpg
          have hfit : i + P ≤ rows.length := by
            by_contra hgt
            exact hrest (indexingLoopPages_stop rows P fuel _ _ (by omega))
          simp only [List.length_take, List.length_drop]
          omega
        · exact ih (min (i + P) rows.length) hnext pg hpg
    · rw [indexingLoopPages_stop rows P _ i i hi] at hpg
      simp at hpg

/-- **C2**: on an unsliced selection of `T` records with positive configured
page size `P`, `get_indexing_queryset` imposes the ascending-pk order, yields
exactly the selected records (each exactly once, as a permutation of the
selection) sorted ascending by primary key, consumes them as the
concatenation of `ceil(T/P)` pages, every page but the last of size exactly
`P`; the loop advances its cursor to `min(cursor + P, T)` each iteration and
stops once the yielded count reaches `T`. -/
theorem get_indexing_queryset_pagination (d : Document) (qs : QuerySet)
    (hP : 0 < d.queryset_pagination) (hs : qs.is_sliced = false) :
    indexingOrder qs = qs.order_by_pk ∧
    (d.get_indexing_queryset qs).Perm qs.rows ∧
    List.Sorted pkLE (d.get_indexing_queryset qs) ∧
    (d.get_indexing_queryset qs).length = qs.rows.length ∧
    (d.get_indexing_queryset_pages qs).length =
      (qs.rows.length + d.queryset_pagination - 1) / d.queryset_pagination ∧
    (∀ pg ∈ (d.get_indexing_queryset_pages qs).dropLast,
      pg.length = d.queryset_pagination) ∧
    d.get_indexing_queryset qs = (d.get_indexing_queryset_pages qs).flatten ∧
    (∀ fuel i done rows,
      indexingLoopPages rows d.queryset_pagination (fuel + 1) i done =
        if done < rows.length then
          ((rows.drop i).take d.queryset_pagination) ::
            indexingLoopPages rows d.queryset_pagination fuel
              (min (i + d.queryset_pagination) rows.length)
              (done + ((rows.drop i).take d.queryset_pagination).length)
        else []) := by
  have horder : indexingOrder qs = qs.order_by_pk := by
    simp [indexingOrder, hs]
  set P := d.queryset_pagination with hPdef
  set sorted := List.insertionSort pkLE qs.rows with hsorted
  have hrows : (indexingOrder qs).rows = sorted := by
    rw [horder]; rfl
  have hlen : sorted.length = qs.rows.length := List.length_insertionSort _ _
  have hfuel : sorted.length ≤ 0 + (sorted.length + 1) * P := by
    have : sorted.length + 1 ≤ (sorted.length + 1) * P :=
      Nat.le_mul_of_pos_right _ hP
    omega
  have hflat : d.get_indexing_queryset qs = sorted := by
    rw [Document.get_indexing_queryset, Document.get_indexing_queryset_pages,
      hrows, ← hPdef, indexingLoopPages_flatten sorted P hP (sorted.length + 1) 0 hfuel]
    rfl
  refine ⟨horder, ?_, ?_, ?_, ?_, ?_, ?_, ?_⟩
  · rw [hflat]
    exact List.perm_insertionSort pkLE qs.rows
  · rw [hflat]
    exact List.sorted_insertionSort pkLE qs.rows
  · rw [hflat, hlen]
  · rw [Document.get_indexing_queryset_pages, hrows, ← hPdef,
      indexingLoopPages_count sorted P hP (sorted.length + 1) 0 hfuel]
    rw [hlen, Nat.sub_zero]
  · rw [Document.get_indexing_queryset_pages, hrows, ← hPdef]
    exact indexingLoopPages_fixed_size sorted P hP (sorted.length + 1) 0 hfuel
  · rw [Document.get_indexing_queryset]
  · intro fuel i done rows
    rfl

/-- **C2** (witness): with 5 records out of pk order and page size 2, the
chunker yields the 5 records ascending by pk, in `ceil(5/2) = 3` pages whose
non-final pages have size 2. -/
theorem get_indexing_queryset_pagination_witness :
    (sampleDoc.get_indexing_queryset sampleQs).Perm sampleQs.rows ∧
    List.Sorted pkLE (sampleDoc.get_indexing_queryset sampleQs) ∧
    (sampleDoc.get_indexing_queryset_pages sampleQs).length = 3 ∧
    sampleDoc.get_indexing_queryset sampleQs = [⟨1⟩, ⟨2⟩, ⟨3⟩, ⟨4⟩, ⟨5⟩] := by
  have h := get_indexing_queryset_pagination sampleDoc sampleQs (by decide) rfl
  exact ⟨h.2.1, h.2.2.1, h.2.2.2.2.1, by decide⟩

end DjangoOpensearchDsl
